import Mathlib

/-!
Shallow embedding of the acquisition-to-series pipeline of `src/ocr.py`:
the text-to-number extraction cascade (`parse_value`), the queue consumer
(`process_queue`), channel removal (`remove_channel`), data clearing
(`clear_all_data`), the capture loop (`monitor_loop`), point selection
(`select_point`) and the zoom handlers (`zoom_chart`, `on_scroll`).

Machine floats of the Python source are modelled as exact rationals (`ℚ`);
timestamps are modelled as rationals in data space (the source converts
`datetime` values with `mdates.date2num` before comparing distances).
-/

namespace OcrPipeline

/-! ### A small matcher for the seven fixed regular expressions of `parse_value`

`parse_value` applies `re.search(pattern, text, re.IGNORECASE)` for seven
fixed patterns.  The patterns only use: case-insensitive literal characters,
the classes `\d`, `\s` and `[：:]`, the quantifiers `?`, `*`, `{m,n}`, the
word boundary `\b`, and a single capturing group of the shape
`\d{1,i}\.?\d{0,f}`.  The matcher below implements exactly this fragment
with Python's leftmost-start, greedy-backtracking semantics: for every
element the candidate consumptions are enumerated longest-first, and the
first full match in that enumeration is the one `re.search` returns. -/

/-- Character atoms appearing in the seven patterns: a literal character
(compared case-insensitively, as all seven searches use `re.IGNORECASE`),
`\d`, `\s`, and the class `[：:]`. -/
inductive RAtom : Type
  | achar (c : Char)
  | digit
  | space
  | colonc
deriving DecidableEq

/-- Whether a character matches an atom.  `\s` is Python's ASCII whitespace
set; the texts this program matches contain no exotic Unicode spaces. -/
def atomMatch : RAtom → Char → Bool
  | RAtom.achar c, x => x.toLower == c.toLower
  | RAtom.digit, x => x.isDigit
  | RAtom.space, x => x == ' ' || x == '\t' || x == '\n' || x == '\r' || x == '\x0b' || x == '\x0c'
  | RAtom.colonc, x => x == '：' || x == ':'

/-- Python's `\w` (for `\b`) restricted to the scripts this program can see:
ASCII alphanumerics, underscore, and CJK ideographs. -/
def isWordChar (c : Char) : Bool :=
  c.isAlphanum || c == '_' || (0x4E00 ≤ c.toNat && c.toNat ≤ 0x9FFF)

/-- One element of a pattern: an atom with a `{lo,hi}` quantifier
(`hi = none` meaning unbounded, so `X?` is `{0,1}`, `X*` is `{0,none}` and a
plain literal is `{1,1}`), or a word boundary `\b`. -/
inductive RElem : Type
  | atom (a : RAtom) (lo : Nat) (hi : Option Nat)
  | wb

/-- Length of the maximal prefix of `s` whose characters all match `a`. -/
def runLen (a : RAtom) : List Char → Nat
  | [] => 0
  | c :: r => if atomMatch a c then runLen a r + 1 else 0

/-- Counts `[n, n-1, ..., 0]`: candidate repetition counts in greedy order. -/
def downFrom : Nat → List Nat
  | 0 => [0]
  | n + 1 => (n + 1) :: downFrom n

/-- Cap a count by an optional `{..,hi}` bound. -/
def capMin (n : Nat) : Option Nat → Nat
  | none => n
  | some m => min n m

/-- The last character of the first `n` characters of `s` (the character
preceding the rest of the input), defaulting to `prev` when `n = 0`. -/
def prevAfter (s : List Char) (prev : Option Char) (n : Nat) : Option Char :=
  if n = 0 then prev else (s.take n).getLast?

/-- Candidate `(suffix, preceding character)` states after matching
`a{lo,hi}` greedily at the head of `s`, longest consumption first. -/
def repDrops (a : RAtom) (lo : Nat) (hi : Option Nat) (s : List Char) (prev : Option Char) :
    List (List Char × Option Char) :=
  (downFrom (capMin (runLen a s) hi)).filterMap fun n =>
    if lo ≤ n then some (s.drop n, prevAfter s prev n) else none

/-- Word boundary `\b`: holds between `prev` and the head of `s` iff exactly one side is a
word character (either side may be absent at the ends of the input). -/
def isBoundary (prev : Option Char) (s : List Char) : Bool :=
  let w : Option Char → Bool := fun o => match o with
    | none => false
    | some c => isWordChar c
  w prev != w s.head?

/-- All `(suffix, preceding character)` states reachable by matching the
element list `es` at the head of `s`, in greedy backtracking order: the
state `re.search` commits to is the first one whose continuation succeeds. -/
def matchSeq : List RElem → List Char → Option Char → List (List Char × Option Char)
  | [], s, prev => [(s, prev)]
  | RElem.atom a lo hi :: es, s, prev =>
      (repDrops a lo hi s prev).flatMap fun sp => matchSeq es sp.1 sp.2
  | RElem.wb :: es, s, prev =>
      if isBoundary prev s then matchSeq es s prev else []

/-- Candidates for the fractional tail `\.?\d{0,fhi}` of a capturing group:
`capt` is the digits already captured, `withDot` tells whether the optional
dot was consumed, `r` is the input after the dot (or after the digits).
Returns `(capture, rest)` pairs, longest fractional part first. -/
def fracTries (fhi : Option Nat) (capt : List Char) (withDot : Bool) (r : List Char) :
    List (List Char × List Char) :=
  (downFrom (capMin (runLen RAtom.digit r) fhi)).map fun n =>
    (capt ++ (if withDot then ['.'] else []) ++ r.take n, r.drop n)

/-- Candidates for the capturing group `(\d{1,ihi}\.?\d{0,fhi})` at the head
of `s`, as `(capture, rest)` pairs in greedy backtracking order (integer
digits longest first; dot-consumed before dot-skipped; fractional digits
longest first). -/
def numMatches (ihi fhi : Option Nat) (s : List Char) : List (List Char × List Char) :=
  (downFrom (capMin (runLen RAtom.digit s) ihi)).flatMap fun n1 =>
    if n1 = 0 then []
    else
      let cap1 := s.take n1
      let r1 := s.drop n1
      (match r1 with
        | '.' :: r2 => fracTries fhi cap1 true r2
        | _ => []) ++ fracTries fhi cap1 false r1

/-- One of the seven fixed patterns: elements before the group, the group's
`{1,ihi}` / `{0,fhi}` digit bounds, and elements after the group. -/
structure CPat : Type where
  pre : List RElem
  ihi : Option Nat
  fhi : Option Nat
  post : List RElem

/-- Match a pattern anchored at the head of `s` (`prev` is the character
before `s`, for `\b`), returning the group's capture of the match that
greedy backtracking commits to, if any. -/
def matchAt (p : CPat) (s : List Char) (prev : Option Char) : Option (List Char) :=
  ((matchSeq p.pre s prev).flatMap fun sp =>
    (numMatches p.ihi p.fhi sp.1).flatMap fun cr =>
      (matchSeq p.post cr.2 cr.1.getLast?).map fun _ => cr.1).head?

/-- Model of `re.search`: try each start position left to right and return the first
position's committed capture. -/
def reSearch (p : CPat) : List Char → Option Char → Option (List Char)
  | s, prev =>
    match matchAt p s prev with
    | some capt => some capt
    | none =>
      match s with
      | [] => none
      | c :: rest => reSearch p rest (some c)

/-- Shorthand: a case-insensitive literal character element. -/
def lit (c : Char) : RElem := RElem.atom (RAtom.achar c) 1 (some 1)

/-- Shorthand: the element `[：:]`. -/
def colonE : RElem := RElem.atom RAtom.colonc 1 (some 1)

/-- Shorthand: the element `\s*`. -/
def spaces : RElem := RElem.atom RAtom.space 0 none

/-- Pattern 1 of `parse_value`: `计数率[：:]\s*(\d+\.?\d*)\s*cps`. -/
def pattern1 : CPat :=
  ⟨[lit '计', lit '数', lit '率', colonE, spaces], none, none,
   [spaces, lit 'c', lit 'p', lit 's']⟩

/-- Pattern 2: `(\d+\.?\d*)\s*cps`. -/
def pattern2 : CPat := ⟨[], none, none, [spaces, lit 'c', lit 'p', lit 's']⟩

/-- Pattern 3: `计数率[：:]\s*(\d+\.?\d*)`. -/
def pattern3 : CPat := ⟨[lit '计', lit '数', lit '率', colonE, spaces], none, none, []⟩

/-- Pattern 4: `Rate[：:]\s*(\d+\.?\d*)` (case-insensitive). -/
def pattern4 : CPat := ⟨[lit 'R', lit 'a', lit 't', lit 'e', colonE, spaces], none, none, []⟩

/-- Pattern 5: `数值[：:]\s*(\d+\.?\d*)`. -/
def pattern5 : CPat := ⟨[lit '数', lit '值', colonE, spaces], none, none, []⟩

/-- Pattern 6: `(\d{1,6}\.?\d{0,2})`. -/
def pattern6 : CPat := ⟨[], some 6, some 2, []⟩

/-- Pattern 7: `\b(\d+\.?\d*)\b`. -/
def pattern7 : CPat := ⟨[RElem.wb], none, none, [RElem.wb]⟩

/-- The ordered cascade of `parse_value`. -/
def patternList : List CPat :=
  [pattern1, pattern2, pattern3, pattern4, pattern5, pattern6, pattern7]

/-! ### Numeric conversion and the cascade -/

/-- Numeric value of a digit string. -/
def digitsVal (l : List Char) : Nat :=
  l.foldl (fun a c => 10 * a + (c.toNat - '0'.toNat)) 0

/-- Python's `float()` on the strings the cascade can capture: a run of
digits with at most one dot, at least one digit present.  On anything else
(`""`, `"."`, stray characters, two dots) `float()` raises `ValueError`,
modelled as `none`.  (`float()` also accepts exponents, signs, `inf` and
whitespace; none of those shapes can be captured by the seven groups.) -/
def parseDecimal (s : List Char) : Option ℚ :=
  if s = [] then none
  else if ¬ s.all (fun c => c.isDigit || c == '.') then none
  else if 2 ≤ (s.filter (fun c => c == '.')).length then none
  else if s = ['.'] then none
  else
    let ip := s.takeWhile (fun c => c ≠ '.')
    let fp := (s.dropWhile (fun c => c ≠ '.')).drop 1
    some ((digitsVal ip : ℚ) + (digitsVal fp : ℚ) / (10 : ℚ) ^ fp.length)

/-- Python's `str.strip()`: drop whitespace from both ends. -/
def pyStrip (s : List Char) : List Char :=
  ((s.dropWhile fun c => atomMatch RAtom.space c).reverse.dropWhile fun c =>
    atomMatch RAtom.space c).reverse

/-- The cascade loop of `parse_value`: for each pattern in order, search;
on a match, convert the capture with `float` and return the value if it
lies in `[0, 100000]`, otherwise fall through to the next pattern.  A
failed conversion raises, and the `except` wrapping the whole loop turns
that into `None` for the whole call (it does not fall through). -/
def tryPatterns : List CPat → List Char → Option ℚ
  | [], _ => none
  | p :: ps, t =>
    match reSearch p t none with
    | none => tryPatterns ps t
    | some capt =>
      match parseDecimal capt with
      | none => none
      | some v => if 0 ≤ v ∧ v ≤ 100000 then some v else tryPatterns ps t

/-- Function `parse_value` of `src/ocr.py` (lines 733–769): strip the OCR text, then
run the cascade; `none` models Python's `None` (the spec's `NotFound`). -/
def parse_value (text : String) : Option ℚ :=
  tryPatterns patternList (pyStrip text.data)

/-- The cascade as §4.1 of the spec words its failure handling, for
comparison with the source's `tryPatterns`: here a capture that fails
numeric conversion makes extraction "move to the next pattern rather than
aborting"; in the source the conversion error is caught by the `except`
around the whole loop, aborting the call. -/
def tryPatternsContinue : List CPat → List Char → Option ℚ
  | [], _ => none
  | p :: ps, t =>
    match reSearch p t none with
    | none => tryPatternsContinue ps t
    | some capt =>
      match parseDecimal capt with
      | none => tryPatternsContinue ps t
      | some v => if 0 ≤ v ∧ v ≤ 100000 then some v else tryPatternsContinue ps t

/-! ### Channels, the handoff queue, and the consumer -/

/-- The per-channel state the pipeline mutates: the parallel `times` /
`values` arrays and the `visible` flag (lines 412–422; `name`, `rect`,
`color` and the widget references are never read by the embedded
operations).  Timestamps are rationals in chart data space. -/
structure Channel : Type where
  times : List ℚ
  values : List ℚ
  visible : Bool
deriving DecidableEq

/-- A queued reading `(channel_index, timestamp, value)` as produced at
line 721: the first component is the channel's position `i` in
`self.channels` at enqueue time. -/
abbrev Reading : Type := Nat × ℚ × ℚ

/-- A channel as `add_channel` creates it (lines 412–423): empty arrays,
visible. -/
def freshChannel : Channel := ⟨[], [], true⟩

/-- Append one point and enforce the history cap (lines 789–797): push onto
both arrays, and if `times` now exceeds `max_points`, slice the oldest
`excess = len(times) - max_points` entries off the front of both arrays. -/
def appendPoint (maxPoints : Nat) (c : Channel) (t v : ℚ) : Channel :=
  let ts := c.times ++ [t]
  let vs := c.values ++ [v]
  if maxPoints < ts.length then
    { c with times := ts.drop (ts.length - maxPoints), values := vs.drop (ts.length - maxPoints) }
  else
    { c with times := ts, values := vs }

/-- Handle one dequeued reading (lines 783–797): the channel index must be
in range (`0 <= channel_index < len(self.channels)`; the index is a `Nat`,
as every enqueued index comes from `enumerate`), and the value must be
non-negative (`value is not None` is vacuous: only non-`None` floats are
enqueued).  Returns the updated channel list and whether a point was
appended (`new_data_added`). -/
def applyReading (maxPoints : Nat) (channels : List Channel) (r : Reading) :
    List Channel × Bool :=
  if h : r.1 < channels.length then
    if 0 ≤ r.2.2 then
      (channels.set r.1 (appendPoint maxPoints (channels.get ⟨r.1, h⟩) r.2.1 r.2.2), true)
    else (channels, false)
  else (channels, false)

/-- The batch loop of `process_queue`: repeatedly `get_nowait` until the
queue is empty, threading the channel list and the `new_data_added` flag. -/
def drainLoop (maxPoints : Nat) (channels : List Channel) (flag : Bool) :
    List Reading → List Channel × Bool
  | [] => (channels, flag)
  | r :: q =>
    let step := applyReading maxPoints channels r
    drainLoop maxPoints step.1 (flag || step.2) q

/-- Function `process_queue` of `src/ocr.py` (lines 771–818), restricted to its data
effect: drain the whole handoff queue into the channel arrays; the `Bool`
is `new_data_added` (display refresh happens iff it is true). -/
def process_queue (maxPoints : Nat) (channels : List Channel) (q : List Reading) :
    List Channel × Bool :=
  drainLoop maxPoints channels false q

/-- Function `remove_channel` (lines 550–581), confirmed branch: pop the channel at
the active index from the list.  The handoff queue is not touched, and the
indices of all later channels shift down by one. -/
def remove_channel (channels : List Channel) (idx : Nat) : List Channel :=
  channels.eraseIdx idx

/-- The store state shared by the operations: the channel list, the handoff
queue (`data_queue`, unbounded `queue.Queue()` at line 98, modelled as a
FIFO list), and `selected_points` (a Python list of
`(channel_index, point_index)` pairs). -/
structure Store : Type where
  channels : List Channel
  queue : List Reading
  selected : List (Nat × Nat)
deriving DecidableEq

/-- Function `clear_all_data` (lines 1100–1127), confirmed branch: if the channel
list is empty the function returns immediately (nothing is purged);
otherwise it drains the whole queue, empties every channel's arrays and
clears `selected_points`. -/
def clear_all_data (s : Store) : Store :=
  if s.channels.isEmpty then s
  else
    { channels := s.channels.map fun c => { c with times := [], values := [] },
      queue := [],
      selected := [] }

/-! ### The capture loop -/

/-- One iteration of the `for i, channel in enumerate(self.channels)` body
of `monitor_loop` (lines 711–726).  `ocr i` is the combined result of the
external collaborators `ImageGrab.grab` + `image_to_string` for the channel
at index `i`: `none` models an exception they raise, `some text` the
recognized text.  On an exception the `for` loop is abandoned (the
surrounding `try` is outside it), so the remaining channels are skipped and
the `Bool` result is `false`; readings enqueued before the failure stay in
the queue.  On text, a reading is enqueued iff `parse_value` returns a
value `≥ 0` (the queue is unbounded, so the non-blocking `put` never hits
`queue.Full`). -/
def captureChannels (ocr : Nat → Option String) (ts : ℚ) :
    List Channel → Nat → List Reading → List Reading × Bool
  | [], _, q => (q, true)
  | _ :: rest, i, q =>
    match ocr i with
    | none => (q, false)
    | some text =>
      match parse_value text with
      | some v =>
        if 0 ≤ v then captureChannels ocr ts rest (i + 1) (q ++ [(i, ts, v)])
        else captureChannels ocr ts rest (i + 1) q
      | none => captureChannels ocr ts rest (i + 1) q

/-- One iteration of the `while self.monitoring` loop: the channel list and
capture results as observed at that iteration, plus the shared timestamp
taken at its start (line 708). -/
structure MonIter : Type where
  ocr : Nat → Option String
  ts : ℚ
  chans : List Channel

/-- The queue effect of one `monitor_loop` iteration.  Total: any exception
in the iteration body is caught by the `try`/`except` at lines 706–731, so
an iteration always returns to the loop head. -/
def monitor_step (it : MonIter) (q : List Reading) : List Reading :=
  (captureChannels it.ocr it.ts it.chans 0 q).1

/-- Function `monitor_loop` (lines 703–731) over a finite monitoring session: runs
every iteration in order; no iteration's failure stops the loop (only the
`monitoring` flag does, modelled by the list ending). -/
def monitor_loop : List MonIter → List Reading → List Reading
  | [], q => q
  | it :: rest, q => monitor_loop rest (monitor_step it q)

/-! ### Chart interaction: point selection and zoom -/

/-- Squared Euclidean distance in `(time-as-numeric, value)` space
(lines 1040–1041). -/
def sqDist (x y t v : ℚ) : ℚ := (t - x) ^ 2 + (v - y) ^ 2

/-- The points the double loop of `select_point` scans, in scan order:
`(channel_index, point_index, time, value)`.  A channel is skipped when it
is invisible or either array is empty (line 1032); the arrays are walked
with `zip` (line 1038). -/
def allPoints (channels : List Channel) : List (Nat × Nat × ℚ × ℚ) :=
  channels.enum.flatMap fun ic =>
    if ic.2.visible ∧ ic.2.times ≠ [] ∧ ic.2.values ≠ [] then
      (ic.2.times.zip ic.2.values).enum.map fun jp => (ic.1, jp.1, jp.2.1, jp.2.2)
    else []

/-- The running minimum of `select_point` (lines 1027–1046): distance and
`(channel, index)` of the best point so far; `none` is the initial
`float('inf')` state, and the strict `<` keeps the earliest point on
ties. -/
def nearestPoint (channels : List Channel) (x y : ℚ) : Option (ℚ × Nat × Nat) :=
  (allPoints channels).foldl
    (fun best p =>
      let d := sqDist x y p.2.2.1 p.2.2.2
      match best with
      | none => some (d, p.1, p.2.1)
      | some b => if d < b.1 then some (d, p.1, p.2.1) else best)
    none

/-- Function `select_point` (lines 1021–1063): on an empty channel list, return; find
the nearest visible point; if its squared distance is below `0.001`, either
toggle `(channel, index)` in `selected_points` (Ctrl held: `list.remove`
of the first occurrence if present, else `append`) or replace the selection
by the singleton; otherwise leave the selection unchanged. -/
def select_point (channels : List Channel) (selected : List (Nat × Nat))
    (x y : ℚ) (ctrl : Bool) : List (Nat × Nat) :=
  if channels = [] then selected
  else
    match nearestPoint channels x y with
    | none => selected
    | some (d, i, j) =>
      if d < 1 / 1000 then
        if ctrl then
          if (i, j) ∈ selected then selected.erase (i, j) else selected ++ [(i, j)]
        else [(i, j)]
      else selected

/-- The chart viewport: `ax.get_xlim()` / `ax.get_ylim()` as `(min, max)`
pairs. -/
structure Viewport : Type where
  xlim : ℚ × ℚ
  ylim : ℚ × ℚ
deriving DecidableEq

/-- Function `zoom_chart(factor)` (lines 1073–1086): scale both axis ranges by
`factor` about their own midpoints. -/
def zoom_chart (factor : ℚ) (v : Viewport) : Viewport :=
  let xc := (v.xlim.1 + v.xlim.2) / 2
  let yc := (v.ylim.1 + v.ylim.2) / 2
  let xw := (v.xlim.2 - v.xlim.1) * factor
  let yh := (v.ylim.2 - v.ylim.1) * factor
  ⟨(xc - xw / 2, xc + xw / 2), (yc - yh / 2, yc + yh / 2)⟩

/-- Function `zoom_in` (line 1065): `zoom_chart(0.8)`. -/
def zoom_in (v : Viewport) : Viewport := zoom_chart (8 / 10) v

/-- Function `zoom_out` (line 1069): `zoom_chart(1.2)`. -/
def zoom_out (v : Viewport) : Viewport := zoom_chart (12 / 10) v

/-- Function `on_scroll` (lines 998–1019): `scale_factor = 1.1 if event.button ==
'up' else 0.9`, then both ranges are scaled by `scale_factor` about their
own midpoints (same formula as `zoom_chart`, written out in the source). -/
def on_scroll (up : Bool) (v : Viewport) : Viewport :=
  let f : ℚ := if up then 11 / 10 else 9 / 10
  let xc := (v.xlim.1 + v.xlim.2) / 2
  let xw := (v.xlim.2 - v.xlim.1) * f
  let yc := (v.ylim.1 + v.ylim.2) / 2
  let yh := (v.ylim.2 - v.ylim.1) * f
  ⟨(xc - xw / 2, xc + xw / 2), (yc - yh / 2, yc + yh / 2)⟩

/-! ### The pipeline as a transition system -/

/-- The state transitions of the pipeline, one constructor per source
operation that touches channels, queue or selection: a capture-loop
iteration, a consumer drain, clearing, adding and removing channels, point
selection, and right-click selection clearing (line 971). -/
inductive SysStep : Store → Store → Prop
  | capture (ocr : Nat → Option String) (ts : ℚ) (s : Store) :
      SysStep s ⟨s.channels, (captureChannels ocr ts s.channels 0 s.queue).1, s.selected⟩
  | drain (maxPoints : Nat) (s : Store) :
      SysStep s ⟨(process_queue maxPoints s.channels s.queue).1, [], s.selected⟩
  | clear (s : Store) : SysStep s (clear_all_data s)
  | add (s : Store) : SysStep s ⟨s.channels ++ [freshChannel], s.queue, s.selected⟩
  | remove (idx : Nat) (s : Store) :
      SysStep s ⟨remove_channel s.channels idx, s.queue, s.selected⟩
  | selectPt (x y : ℚ) (ctrl : Bool) (s : Store) :
      SysStep s ⟨s.channels, s.queue, select_point s.channels s.selected x y ctrl⟩
  | clearSel (s : Store) : SysStep s ⟨s.channels, s.queue, []⟩

/-- The session's initial state: no channels, empty queue, no selection. -/
def initStore : Store := ⟨[], [], []⟩

/-- Reachability from the initial state by pipeline transitions. -/
def Reachable (s : Store) : Prop := Relation.ReflTransGen SysStep initStore s

/-- Keep the newest `m` entries of a list (the oldest-first FIFO trim of the
history cap, expressed as one slice). -/
def keepLast (m : Nat) (l : List α) : List α := l.drop (l.length - m)

/-- Shape of every string the seven capturing groups can produce: a
non-empty run of digits, optionally followed by a dot and more digits. -/
def DigitShape (cap : List Char) : Prop :=
  ∃ d1 d2, cap = d1 ++ d2 ∧ d1 ≠ [] ∧ (∀ c ∈ d1, c.isDigit) ∧
    (d2 = [] ∨ ∃ d3, d2 = '.' :: d3 ∧ ∀ c ∈ d3, c.isDigit)

/-- Invariant strengthening for C10: every value stored in a channel and
every value riding in the handoff queue lies in `[0, 100000]`. -/
def InRangeStore (s : Store) : Prop :=
  (∀ c ∈ s.channels, ∀ v ∈ c.values, 0 ≤ v ∧ v ≤ 100000) ∧
    ∀ r ∈ s.queue, 0 ≤ r.2.2 ∧ r.2.2 ≤ 100000

/-! ## Theorems -/

/-! ### Evaluation helpers for the cascade

Rational arithmetic does not reduce inside the kernel, so concrete runs of
`parse_value` are evaluated by rewriting: the pattern searches are
character-level (decidable), and the final conversion step is normalized
with `norm_num`. -/

theorem tryPatterns_cons_none {p : CPat} {ps : List CPat} {t : List Char}
    (h : reSearch p t none = none) :
    tryPatterns (p :: ps) t = tryPatterns ps t := by
  rw [tryPatterns, h]

theorem tryPatterns_cons_found {p : CPat} {ps : List CPat} {t cap : List Char} {v : ℚ}
    (h : reSearch p t none = some cap) (hd : parseDecimal cap = some v)
    (hv : 0 ≤ v ∧ v ≤ 100000) :
    tryPatterns (p :: ps) t = some v := by
  rw [tryPatterns, h]
  dsimp only
  rw [hd]
  dsimp only
  rw [if_pos hv]

theorem tryPatterns_cons_out {p : CPat} {ps : List CPat} {t cap : List Char} {v : ℚ}
    (h : reSearch p t none = some cap) (hd : parseDecimal cap = some v)
    (hv : ¬ (0 ≤ v ∧ v ≤ 100000)) :
    tryPatterns (p :: ps) t = tryPatterns ps t := by
  rw [tryPatterns, h]
  dsimp only
  rw [hd]
  dsimp only
  rw [if_neg hv]

theorem parseDecimal_eval (cap ip fp : List Char)
    (h1 : cap ≠ []) (h2 : cap.all fun c => c.isDigit || c == '.')
    (h3 : (cap.filter fun c => c == '.').length < 2) (h4 : cap ≠ ['.'])
    (hip : (cap.takeWhile fun c => c ≠ '.') = ip)
    (hfp : ((cap.dropWhile fun c => c ≠ '.').drop 1) = fp) :
    parseDecimal cap = some ((digitsVal ip : ℚ) + (digitsVal fp : ℚ) / (10 : ℚ) ^ fp.length) := by
  rw [parseDecimal, if_neg h1, if_neg (by simp [h2]), if_neg (by omega), if_neg h4]
  rw [hip, hfp]

/-- Concrete conversion: an all-digit capture converts to its integer
value. -/
theorem parseDecimal_int (cap : List Char) (n : Nat) (h1 : cap ≠ [])
    (h2 : cap.all fun c => c.isDigit) (hn : digitsVal cap = n) :
    parseDecimal cap = some (n : ℚ) := by
  have hdig : ∀ c ∈ cap, c.isDigit := by simpa [List.all_eq_true] using h2
  have hnodot : ∀ c ∈ cap, c ≠ '.' := by
    intro c hc he
    have := hdig c hc
    rw [he] at this
    exact absurd this (by decide)
  have hip : (cap.takeWhile fun c => c ≠ '.') = cap :=
    List.takeWhile_eq_self_iff.mpr (by intro x hx; simpa using hnodot x hx)
  have hfp : ((cap.dropWhile fun c => c ≠ '.').drop 1) = [] := by
    rw [List.dropWhile_eq_nil_iff.mpr (by intro x hx; simpa using hnodot x hx)]
    rfl
  have hall : cap.all fun c => c.isDigit || c == '.' := by
    simp only [List.all_eq_true] at h2 ⊢
    intro c hc
    simp [h2 c hc]
  have hfil : (cap.filter fun c => c == '.').length < 2 := by
    have : (cap.filter fun c => c == '.') = [] := by
      rw [List.filter_eq_nil_iff]
      intro c hc
      simpa using hnodot c hc
    simp [this]
  have h4 : cap ≠ ['.'] := by
    intro he
    exact absurd (hdig '.' (by simp [he])) (by decide)
  rw [parseDecimal_eval cap cap [] h1 hall hfil h4 hip hfp, hn]
  norm_num [digitsVal]

/-- Concrete run: the bare integer `123` is matched by pattern 6 and is in
range. -/
theorem parse_value_123 : parse_value ("123") = some 123 := by
  have hd : parseDecimal (("123").data) = some ((123 : Nat) : ℚ) :=
    parseDecimal_int (("123").data) 123 (by decide) (by decide) (by decide)
  simp only [parse_value, patternList]
  rw [tryPatterns_cons_none (by decide), tryPatterns_cons_none (by decide),
    tryPatterns_cons_none (by decide), tryPatterns_cons_none (by decide),
    tryPatterns_cons_none (by decide),
    tryPatterns_cons_found (p := pattern6) (by decide) hd
      (by constructor <;> norm_num)]
  norm_num

/-- Concrete run: the bare digit `7` is matched by pattern 6 and is in
range. -/
theorem parse_value_7 : parse_value ("7") = some 7 := by
  have hd : parseDecimal (("7").data) = some ((7 : Nat) : ℚ) :=
    parseDecimal_int (("7").data) 7 (by decide) (by decide) (by decide)
  simp only [parse_value, patternList]
  rw [tryPatterns_cons_none (by decide), tryPatterns_cons_none (by decide),
    tryPatterns_cons_none (by decide), tryPatterns_cons_none (by decide),
    tryPatterns_cons_none (by decide),
    tryPatterns_cons_found (p := pattern6) (by decide) hd
      (by constructor <;> norm_num)]
  norm_num

/-- Concrete run: the eight-digit text `99999999` is captured whole by
patterns 6 and 7 but is out of range under both, so extraction returns
`NotFound`. -/
theorem parse_value_8digits : parse_value ("99999999") = none := by
  have hd : parseDecimal (("99999999").data) = some ((99999999 : Nat) : ℚ) :=
    parseDecimal_int (("99999999").data) 99999999 (by decide) (by decide) (by decide)
  have hout : ¬ ((0 : ℚ) ≤ ((99999999 : Nat) : ℚ) ∧ ((99999999 : Nat) : ℚ) ≤ 100000) := by
    intro h
    exact absurd h.2 (by norm_num)
  simp only [parse_value, patternList]
  rw [tryPatterns_cons_none (by decide), tryPatterns_cons_none (by decide),
    tryPatterns_cons_none (by decide), tryPatterns_cons_none (by decide),
    tryPatterns_cons_none (by decide),
    tryPatterns_cons_out (p := pattern6) (by decide) hd hout,
    tryPatterns_cons_out (p := pattern7) (by decide) hd hout,
    tryPatterns]

/-- Concrete conversion: the capture `123.45` converts to `2469/20`. -/
theorem parseDecimal_12345 : parseDecimal (("123.45").data) = some (2469 / 20) := by
  rw [parseDecimal_eval (("123.45").data) (("123").data) (("45").data) (by decide)
    (by decide) (by decide) (by decide) (by decide) (by decide)]
  have e1 : digitsVal (("123").data) = 123 := by decide
  have e2 : digitsVal (("45").data) = 45 := by decide
  have e3 : (("45").data).length = 2 := by decide
  rw [e1, e2, e3]
  norm_num

/-- Concrete run: the labeled-with-unit text is matched by pattern 1 with
capture `123.45`. -/
theorem parse_value_labeled : parse_value ("计数率: 123.45 cps") = some (2469 / 20) := by
  simp only [parse_value, patternList]
  rw [tryPatterns_cons_found (p := pattern1) (by decide)
      parseDecimal_12345 (by constructor <;> norm_num)]

/-- Failure of the numeric conversion inside the loop returns `None` for
the whole call (the `except` wraps the loop). -/
theorem tryPatterns_cons_err {p : CPat} {ps : List CPat} {t cap : List Char}
    (h : reSearch p t none = some cap) (hd : parseDecimal cap = none) :
    tryPatterns (p :: ps) t = none := by
  rw [tryPatterns, h]
  dsimp only
  rw [hd]

/-- Soundness of the cascade: a returned value is in the inclusive range
`[0, 100000]` and is the converted committed capture of some pattern in the
list. -/
theorem tryPatterns_sound (ps : List CPat) (t : List Char) (v : ℚ)
    (h : tryPatterns ps t = some v) :
    (0 ≤ v ∧ v ≤ 100000) ∧
      ∃ p ∈ ps, ∃ cap, reSearch p t none = some cap ∧ parseDecimal cap = some v := by
  induction ps with
  | nil => simp [tryPatterns] at h
  | cons p ps ih =>
    cases hs : reSearch p t none with
    | none =>
      rw [tryPatterns_cons_none hs] at h
      obtain ⟨hr, q, hq, cap, hc⟩ := ih h
      exact ⟨hr, q, List.mem_cons_of_mem _ hq, cap, hc⟩
    | some cap =>
      cases hd : parseDecimal cap with
      | none => rw [tryPatterns_cons_err hs hd] at h; cases h
      | some w =>
        by_cases hr : 0 ≤ w ∧ w ≤ 100000
        · rw [tryPatterns_cons_found hs hd hr] at h
          obtain rfl : w = v := Option.some.inj h
          exact ⟨hr, p, List.mem_cons_self p ps, cap, hs, hd⟩
        · rw [tryPatterns_cons_out hs hd hr] at h
          obtain ⟨hr', q, hq, cap', hc⟩ := ih h
          exact ⟨hr', q, List.mem_cons_of_mem _ hq, cap', hc⟩

/-! ### C1: extraction accepts only in-range matches and falls through -/

/-- C1: extraction returns a value only when some pattern of the cascade
has a committed match converting to a value in `[0, 100000]`; a match whose
value is out of range does not short-circuit — the cascade continues with
the next pattern; and on the 8-digit input `99999999` (out of range under
every pattern) the result is `NotFound`. -/
theorem parse_value_range_and_fallthrough :
    (∀ (t : String) (v : ℚ), parse_value t = some v →
      (0 ≤ v ∧ v ≤ 100000) ∧
        ∃ p ∈ patternList, ∃ cap, reSearch p (pyStrip t.data) none = some cap ∧
          parseDecimal cap = some v) ∧
    (∀ (ps : List CPat) (p : CPat) (t cap : List Char) (v : ℚ),
      reSearch p t none = some cap → parseDecimal cap = some v →
      ¬ (0 ≤ v ∧ v ≤ 100000) → tryPatterns (p :: ps) t = tryPatterns ps t) ∧
    parse_value ("99999999") = none := by
  refine ⟨?_, ?_, parse_value_8digits⟩
  · intro t v h
    exact tryPatterns_sound patternList (pyStrip t.data) v h
  · intro ps p t cap v h hd hv
    exact tryPatterns_cons_out h hd hv

/-- C1, witness: the input `7` is accepted (with pattern 6's capture, value
7, in range), and on `99999999` pattern 6's out-of-range match falls
through to pattern 7. -/
theorem parse_value_range_and_fallthrough_witness :
    ((0 ≤ (7 : ℚ) ∧ (7 : ℚ) ≤ 100000) ∧
      ∃ p ∈ patternList, ∃ cap, reSearch p (pyStrip ("7").data) none = some cap ∧
        parseDecimal cap = some 7) ∧
    tryPatterns [pattern6, pattern7] (("99999999").data)
      = tryPatterns [pattern7] (("99999999").data) :=
  ⟨parse_value_range_and_fallthrough.1 ("7") 7 parse_value_7,
   parse_value_range_and_fallthrough.2.1 [pattern7] pattern6 (("99999999").data)
     (("99999999").data) ((99999999 : Nat) : ℚ) (by decide)
     (parseDecimal_int (("99999999").data) 99999999 (by decide) (by decide) (by decide))
     (by norm_num)⟩

/-! ### C7: the labeled-with-unit pattern wins -/

/-- C7: the labeled-with-unit pattern (pattern 1) has top priority —
whenever its committed match converts to an in-range value, extraction
returns that value, regardless of any bare-number match further down the
cascade; concretely, `计数率: 123.45 cps` extracts `123.45`. -/
theorem labeled_pattern_priority :
    (∀ (t : String) (cap : List Char) (v : ℚ),
      reSearch pattern1 (pyStrip t.data) none = some cap → parseDecimal cap = some v →
      0 ≤ v → v ≤ 100000 → parse_value t = some v) ∧
    parse_value ("计数率: 123.45 cps") = some (2469 / 20) := by
  refine ⟨?_, parse_value_labeled⟩
  intro t cap v h hd h0 h1
  simp only [parse_value, patternList]
  rw [tryPatterns_cons_found h hd ⟨h0, h1⟩]

/-- C7, witness: the priority statement applied to the labeled text
itself. -/
theorem labeled_pattern_priority_witness :
    parse_value ("计数率: 123.45 cps") = some (2469 / 20) :=
  labeled_pattern_priority.1 ("计数率: 123.45 cps") (("123.45").data) (2469 / 20)
    (by decide) parseDecimal_12345 (by norm_num) (by norm_num)

/-! ### C9: numeric conversion of captures cannot fail -/

theorem mem_downFrom {k n : Nat} : k ∈ downFrom n ↔ k ≤ n := by
  induction n with
  | zero => simp [downFrom]
  | succ n ih =>
    rw [downFrom]
    simp only [List.mem_cons, ih]
    omega

theorem capMin_le (n : Nat) (h : Option Nat) : capMin n h ≤ n := by
  cases h with
  | none => exact Nat.le_refl n
  | some m => exact Nat.min_le_left n m

theorem take_runLen (a : RAtom) : ∀ (s : List Char) (n : Nat), n ≤ runLen a s →
    ∀ c ∈ s.take n, atomMatch a c = true := by
  intro s
  induction s with
  | nil =>
    intro n _ c hc
    simp at hc
  | cons x r ih =>
    intro n hn c hc
    by_cases hx : atomMatch a x
    · cases n with
      | zero => simp at hc
      | succ n =>
        rw [List.take_succ_cons] at hc
        rcases List.mem_cons.mp hc with rfl | hc'
        · exact hx
        · rw [runLen, if_pos hx] at hn
          exact ih n (by omega) c hc'
    · rw [runLen, if_neg hx] at hn
      interval_cases n
      simp at hc

theorem mem_fracTries_shape {fhi : Option Nat} {capt : List Char} {wd : Bool}
    {r capf rest : List Char} (h : (capf, rest) ∈ fracTries fhi capt wd r) :
    ∃ n, n ≤ runLen RAtom.digit r ∧
      capf = capt ++ (if wd then ['.'] else []) ++ r.take n ∧
      ∀ c ∈ r.take n, c.isDigit := by
  rw [fracTries, List.mem_map] at h
  obtain ⟨n, hn, he⟩ := h
  rw [mem_downFrom] at hn
  have hnr : n ≤ runLen RAtom.digit r := le_trans hn (capMin_le _ _)
  obtain ⟨h1, _⟩ := Prod.mk.injEq .. ▸ he
  exact ⟨n, hnr, h1.symm, fun c hc => take_runLen RAtom.digit r n hnr c hc⟩

theorem runLen_le_length (a : RAtom) (s : List Char) : runLen a s ≤ s.length := by
  induction s with
  | nil => simp [runLen]
  | cons x r ih =>
    rw [runLen]
    by_cases hx : atomMatch a x
    · rw [if_pos hx]
      simpa using ih
    · rw [if_neg hx]
      simp

theorem runLen_take_ne_nil {a : RAtom} {s : List Char} {n : Nat}
    (h1 : n ≤ runLen a s) (h0 : n ≠ 0) : s.take n ≠ [] := by
  have hlen : runLen a s ≤ s.length := runLen_le_length a s
  intro he
  have := congrArg List.length he
  rw [List.length_take] at this
  simp only [List.length_nil] at this
  omega

theorem mem_numMatches_shape {ihi fhi : Option Nat} {s cap rest : List Char}
    (h : (cap, rest) ∈ numMatches ihi fhi s) : DigitShape cap := by
  rw [numMatches, List.mem_flatMap] at h
  obtain ⟨n1, hn1, hmem⟩ := h
  rw [mem_downFrom] at hn1
  by_cases h0 : n1 = 0
  · rw [if_pos h0] at hmem
    simp at hmem
  · rw [if_neg h0] at hmem
    have hn1r : n1 ≤ runLen RAtom.digit s := le_trans hn1 (capMin_le _ _)
    have hd1 : ∀ c ∈ s.take n1, c.isDigit :=
      fun c hc => take_runLen RAtom.digit s n1 hn1r c hc
    have hne : s.take n1 ≠ [] := runLen_take_ne_nil hn1r h0
    rw [List.mem_append] at hmem
    rcases hmem with hmem | hmem
    · split at hmem
      · obtain ⟨n, hn, hcap, hdig⟩ := mem_fracTries_shape hmem
        rename_i r2 heq
        refine ⟨s.take n1, '.' :: List.take n r2, ?_, hne, hd1,
          Or.inr ⟨List.take n r2, rfl, hdig⟩⟩
        rw [hcap]
        simp
      · simp at hmem
    · obtain ⟨n, hn, hcap, hdig⟩ := mem_fracTries_shape hmem
      refine ⟨s.take n1 ++ (s.drop n1).take n, [], ?_, ?_, ?_, Or.inl rfl⟩
      · rw [hcap]
        simp
      · intro he
        exact hne (List.append_eq_nil.mp he).1
      · intro c hc
        rcases List.mem_append.mp hc with hc' | hc'
        · exact hd1 c hc'
        · exact hdig c hc'

theorem matchAt_shape {p : CPat} {s : List Char} {prev : Option Char} {cap : List Char}
    (h : matchAt p s prev = some cap) : DigitShape cap := by
  rw [matchAt] at h
  obtain ⟨ys, hys⟩ := List.head?_eq_some_iff.mp h
  have hmem : cap ∈ (matchSeq p.pre s prev).flatMap fun sp =>
      (numMatches p.ihi p.fhi sp.1).flatMap fun cr =>
        (matchSeq p.post cr.2 cr.1.getLast?).map fun _ => cr.1 := by
    rw [hys]
    exact List.mem_cons_self _ _
  rw [List.mem_flatMap] at hmem
  obtain ⟨sp, _, hmem⟩ := hmem
  rw [List.mem_flatMap] at hmem
  obtain ⟨cr, hcr, hmem⟩ := hmem
  rw [List.mem_map] at hmem
  obtain ⟨_, _, hcap⟩ := hmem
  rw [← hcap]
  exact mem_numMatches_shape (s := sp.1) hcr

theorem reSearch_shape (p : CPat) : ∀ (s : List Char) (prev : Option Char) (cap : List Char),
    reSearch p s prev = some cap → DigitShape cap := by
  intro s
  induction s with
  | nil =>
    intro prev cap h
    rw [reSearch] at h
    cases hm : matchAt p [] prev with
    | some c =>
      rw [hm] at h
      exact Option.some.inj h ▸ matchAt_shape hm
    | none =>
      rw [hm] at h
      cases h
  | cons c r ih =>
    intro prev cap h
    rw [reSearch] at h
    cases hm : matchAt p (c :: r) prev with
    | some c' =>
      rw [hm] at h
      exact Option.some.inj h ▸ matchAt_shape hm
    | none =>
      rw [hm] at h
      exact ih (some c) cap h

theorem DigitShape_parseDecimal {cap : List Char} (h : DigitShape cap) :
    (parseDecimal cap).isSome := by
  obtain ⟨d1, d2, rfl, hne, hd1, hd2⟩ := h
  have hdig_ne_dot : ∀ c : Char, c.isDigit → ¬ (c == '.') = true := by
    intro c hc he
    rw [eq_of_beq he] at hc
    exact absurd hc (by decide)
  have hall : (d1 ++ d2).all (fun c => c.isDigit || c == '.') = true := by
    rw [List.all_append]
    refine Bool.and_eq_true_iff.mpr ⟨?_, ?_⟩
    · rw [List.all_eq_true]
      intro c hc
      simp [hd1 c hc]
    · rw [List.all_eq_true]
      rcases hd2 with rfl | ⟨d3, rfl, hd3⟩
      · intro c hc
        simp at hc
      · intro c hc
        rcases List.mem_cons.mp hc with rfl | hc'
        · simp
        · simp [hd3 c hc']
  have hfil : ((d1 ++ d2).filter fun c => c == '.').length < 2 := by
    rw [List.filter_append, List.length_append]
    have e1 : (d1.filter fun c => c == '.') = [] := by
      rw [List.filter_eq_nil_iff]
      intro c hc
      exact hdig_ne_dot c (hd1 c hc)
    rcases hd2 with rfl | ⟨d3, rfl, hd3⟩
    · simp [e1]
    · have e2 : (d3.filter fun c => c == '.') = [] := by
        rw [List.filter_eq_nil_iff]
        intro c hc
        exact hdig_ne_dot c (hd3 c hc)
      rw [e1, List.filter_cons_of_pos (by simp), e2]
      simp
  have hne' : d1 ++ d2 ≠ [] := by
    intro he
    exact hne (List.append_eq_nil.mp he).1
  have hnedot : d1 ++ d2 ≠ ['.'] := by
    intro he
    have hl := congrArg List.length he
    rw [List.length_append] at hl
    simp only [List.length_cons, List.length_nil] at hl
    have hpos : 0 < d1.length := List.length_pos.mpr hne
    have h1 : d1.length = 1 ∧ d2.length = 0 := by omega
    have hd2e : d2 = [] := List.eq_nil_of_length_eq_zero h1.2
    rw [hd2e, List.append_nil] at he
    have : '.' ∈ d1 := by
      rw [he]
      simp
    exact absurd (hd1 '.' this) (by decide)
  rw [parseDecimal, if_neg hne', if_neg (by simp [hall]), if_neg (by omega), if_neg hnedot]
  rfl

theorem tryPatterns_eq_continue (ps : List CPat) (t : List Char) :
    tryPatterns ps t = tryPatternsContinue ps t := by
  induction ps with
  | nil => rfl
  | cons p ps ih =>
    cases hs : reSearch p t none with
    | none =>
      rw [tryPatterns_cons_none hs, tryPatternsContinue, hs, ih]
    | some cap =>
      obtain ⟨v, hv⟩ := Option.isSome_iff_exists.mp
        (DigitShape_parseDecimal (reSearch_shape p t none cap hs))
      by_cases hr : 0 ≤ v ∧ v ≤ 100000
      · rw [tryPatterns_cons_found hs hv hr, tryPatternsContinue, hs]
        dsimp only
        rw [hv]
        dsimp only
        rw [if_pos hr]
      · rw [tryPatterns_cons_out hs hv hr, tryPatternsContinue, hs]
        dsimp only
        rw [hv]
        dsimp only
        rw [if_neg hr, ih]

/-- C9: a committed capture of any pattern always converts successfully
(`float()` cannot fail on the shapes the seven groups produce), so the
source's behavior — where a conversion error would abort the whole call via
the `except` around the loop — coincides on every input with the spec's
described behavior of treating a conversion failure as a per-pattern
failure and moving on to the next pattern. -/
theorem conversion_failure_unreachable :
    (∀ (p : CPat) (s : List Char) (prev : Option Char) (cap : List Char),
      reSearch p s prev = some cap → (parseDecimal cap).isSome) ∧
    (∀ text : String, parse_value text = tryPatternsContinue patternList (pyStrip text.data)) := by
  constructor
  · intro p s prev cap h
    exact DigitShape_parseDecimal (reSearch_shape p s prev cap h)
  · intro text
    exact tryPatterns_eq_continue patternList (pyStrip text.data)

/-- C9, witness: pattern 6's committed capture on the input `5` converts
successfully. -/
theorem conversion_failure_unreachable_witness :
    (parseDecimal (("5").data)).isSome :=
  conversion_failure_unreachable.1 pattern6 (("5").data) none (("5").data) (by decide)

/-! ### C3: zoom round trips -/

/-- C3, counterexample: zoom-in (0.8) then zoom-out (1.2) does not restore
the viewport `(0,10) × (0,10)` (it shrinks both ranges to 9.6/10 of their
width), and an up-scroll followed by a down-scroll does not restore it
either (the factors are 1.1 and 0.9, whose product is 0.99) — far outside
floating-point tolerance in both cases. -/
theorem zoom_round_trip_fails :
    zoom_out (zoom_in ⟨(0, 10), (0, 10)⟩) ≠ (⟨(0, 10), (0, 10)⟩ : Viewport) ∧
    on_scroll false (on_scroll true ⟨(0, 10), (0, 10)⟩) ≠ (⟨(0, 10), (0, 10)⟩ : Viewport) ∧
    zoom_out (zoom_in ⟨(0, 10), (0, 10)⟩) = ⟨(1/5, 49/5), (1/5, 49/5)⟩ ∧
    on_scroll false (on_scroll true ⟨(0, 10), (0, 10)⟩) = ⟨(1/20, 199/20), (1/20, 199/20)⟩ := by
  refine ⟨?_, ?_, ?_, ?_⟩ <;>
    norm_num [zoom_out, zoom_in, zoom_chart, on_scroll, Viewport.mk.injEq, Prod.mk.injEq]

/-- C3, amended: both zoom pairs preserve the midpoints of both axis ranges
but scale the widths by the product of their factors — 0.8·1.2 = 24/25 for
the buttons, 1.1·0.9 = 99/100 for an up+down scroll pair — so the viewport
is not restored (except at zero width); and a scroll event scales both
ranges about their own midpoints by 1.1 (up) respectively 0.9 (down), not
by 1/1.1 and 1.1. -/
theorem zoom_pair_scales_widths (v : Viewport) :
    (zoom_out (zoom_in v)).xlim.1 + (zoom_out (zoom_in v)).xlim.2 = v.xlim.1 + v.xlim.2 ∧
    (zoom_out (zoom_in v)).ylim.1 + (zoom_out (zoom_in v)).ylim.2 = v.ylim.1 + v.ylim.2 ∧
    (zoom_out (zoom_in v)).xlim.2 - (zoom_out (zoom_in v)).xlim.1
      = 24/25 * (v.xlim.2 - v.xlim.1) ∧
    (zoom_out (zoom_in v)).ylim.2 - (zoom_out (zoom_in v)).ylim.1
      = 24/25 * (v.ylim.2 - v.ylim.1) ∧
    (on_scroll false (on_scroll true v)).xlim.1 + (on_scroll false (on_scroll true v)).xlim.2
      = v.xlim.1 + v.xlim.2 ∧
    (on_scroll false (on_scroll true v)).ylim.1 + (on_scroll false (on_scroll true v)).ylim.2
      = v.ylim.1 + v.ylim.2 ∧
    (on_scroll false (on_scroll true v)).xlim.2 - (on_scroll false (on_scroll true v)).xlim.1
      = 99/100 * (v.xlim.2 - v.xlim.1) ∧
    (on_scroll false (on_scroll true v)).ylim.2 - (on_scroll false (on_scroll true v)).ylim.1
      = 99/100 * (v.ylim.2 - v.ylim.1) ∧
    on_scroll true v = zoom_chart (11/10) v ∧
    on_scroll false v = zoom_chart (9/10) v := by
  have hup : ∀ w : Viewport, on_scroll true w = zoom_chart (11/10) w := fun w => rfl
  have hdn : ∀ w : Viewport, on_scroll false w = zoom_chart (9/10) w := fun w => rfl
  refine ⟨?_, ?_, ?_, ?_, ?_, ?_, ?_, ?_, hup v, hdn v⟩ <;>
    simp only [hup, hdn, zoom_out, zoom_in, zoom_chart] <;> ring

/-! ### C4: channel references in readings -/

/-- C4, counterexample: with channels `[A, B]` (where `B` already holds the
point `(99, 1)`), a reading `(0, 10, 5)` enqueued for `A` (index 0), then
`A` removed, then one drain: the reading whose channel was removed is not
dropped — it is appended to `B`, the channel that shifted into index 0. -/
theorem removed_channel_reading_misattributed :
    (process_queue 1000 (remove_channel [freshChannel, ⟨[99], [1], true⟩] 0)
        [(0, 10, 5)]).1 = [⟨[99, 10], [1, 5], true⟩] ∧
    ∃ c ∈ (process_queue 1000 (remove_channel [freshChannel, ⟨[99], [1], true⟩] 0)
        [(0, 10, 5)]).1, (5 : ℚ) ∈ c.values := by
  refine ⟨?_, ?_⟩ <;> decide

/-- C4, amended: readings reference channels by their position in the
channel list at enqueue time, not by a stable identifier; after removals
shift the list, a dequeued reading is dropped exactly when its index is out
of range of the current list, and otherwise its point is appended to
whichever channel now occupies that index. -/
theorem reading_channel_reference_is_positional :
    (∀ (m ci : Nat) (t v : ℚ) (chs : List Channel), chs.length ≤ ci →
      process_queue m chs [(ci, t, v)] = (chs, false)) ∧
    (∀ (m ci : Nat) (t v : ℚ) (chs : List Channel) (h : ci < chs.length), 0 ≤ v →
      (process_queue m chs [(ci, t, v)]).1
        = chs.set ci (appendPoint m (chs.get ⟨ci, h⟩) t v)) := by
  constructor
  · intro m ci t v chs hlen
    simp [process_queue, drainLoop, applyReading, Nat.not_lt.mpr hlen]
  · intro m ci t v chs h hv
    simp [process_queue, drainLoop, applyReading, h, hv]

/-- C4, witness for the amended theorem: an out-of-range reading for a
one-channel list is dropped; an in-range one is appended. -/
theorem reading_channel_reference_is_positional_witness :
    process_queue 1000 [freshChannel] [(3, 1, 2)] = ([freshChannel], false) ∧
    (process_queue 1000 [freshChannel] [(0, 1, 2)]).1
      = [freshChannel].set 0 (appendPoint 1000 ([freshChannel].get ⟨0, by decide⟩) 1 2) :=
  ⟨reading_channel_reference_is_positional.1 1000 3 1 2 [freshChannel] (by decide),
   reading_channel_reference_is_positional.2 1000 0 1 2 [freshChannel] (by decide) (by decide)⟩

/-! ### C5: clearing data -/

/-- C5, counterexample: when the channel list is empty `clear_all_data`
returns before touching anything, so a reading still in the handoff queue
(enqueued before the last channel was removed) is not purged and the
selection is not reset, contradicting the unconditional purge the claim
states. -/
theorem clear_with_no_channels_purges_nothing :
    clear_all_data ⟨[], [(0, 1, 2)], [(0, 0)]⟩ = ⟨[], [(0, 1, 2)], [(0, 0)]⟩ ∧
    (clear_all_data ⟨[], [(0, 1, 2)], [(0, 0)]⟩).queue ≠ [] ∧
    (clear_all_data ⟨[], [(0, 1, 2)], [(0, 0)]⟩).selected ≠ [] := by
  refine ⟨?_, ?_, ?_⟩ <;> decide

/-- C5, amended: provided at least one channel exists, `clear_all_data`
empties every channel's `times`/`values`, purges every queued reading, and
resets the selection to empty (so no queued point can be resurrected by a
later drain); with no channels it is a no-op. -/
theorem clear_all_data_clears (s : Store) (h : s.channels ≠ []) :
    (∀ c ∈ (clear_all_data s).channels, c.times = [] ∧ c.values = []) ∧
    (clear_all_data s).queue = [] ∧
    (clear_all_data s).selected = [] ∧
    (clear_all_data s).channels.length = s.channels.length := by
  have hne : s.channels.isEmpty = false := by
    cases hc : s.channels with
    | nil => exact absurd hc h
    | cons a l => rfl
  refine ⟨?_, ?_, ?_, ?_⟩ <;> simp [clear_all_data, hne]

/-- C5, witness: clearing a store with one non-empty channel, one queued
reading and one selected point leaves empty arrays, an empty queue and an
empty selection. -/
theorem clear_all_data_clears_witness :
    (∀ c ∈ (clear_all_data ⟨[⟨[1], [2], true⟩], [(0, 3, 4)], [(0, 0)]⟩).channels,
      c.times = [] ∧ c.values = []) ∧
    (clear_all_data ⟨[⟨[1], [2], true⟩], [(0, 3, 4)], [(0, 0)]⟩).queue = [] ∧
    (clear_all_data ⟨[⟨[1], [2], true⟩], [(0, 3, 4)], [(0, 0)]⟩).selected = [] ∧
    (clear_all_data ⟨[⟨[1], [2], true⟩], [(0, 3, 4)], [(0, 0)]⟩).channels.length
      = (⟨[⟨[1], [2], true⟩], [(0, 3, 4)], [(0, 0)]⟩ : Store).channels.length :=
  clear_all_data_clears ⟨[⟨[1], [2], true⟩], [(0, 3, 4)], [(0, 0)]⟩ (by decide)

/-! ### C2: drain result for a single channel -/

theorem keepLast_length (m : Nat) (l : List α) : (keepLast m l).length = min l.length m := by
  simp only [keepLast, List.length_drop]
  omega

theorem keepLast_of_le {m : Nat} {l : List α} (h : l.length ≤ m) : keepLast m l = l := by
  simp [keepLast, Nat.sub_eq_zero_of_le h]

theorem keepLast_append (m : Nat) (l : List α) (x : α) :
    keepLast m (keepLast m l ++ [x]) = keepLast m (l ++ [x]) := by
  rcases Nat.lt_or_ge l.length m with h | h
  · rw [keepLast_of_le h.le]
  · rcases Nat.eq_zero_or_pos m with rfl | hm
    · simp [keepLast]
    · have hlen : (keepLast m l).length = m := by
        rw [keepLast_length]
        omega
      have e1 : keepLast m (keepLast m l ++ [x]) = (keepLast m l ++ [x]).drop 1 := by
        rw [keepLast, List.length_append, hlen]
        norm_num
      have e2 : keepLast m (l ++ [x]) = (l ++ [x]).drop (l.length - m + 1) := by
        rw [keepLast, List.length_append]
        congr 1
        simp
        omega
      rw [e1, e2, keepLast,
        List.drop_append_of_le_length (by rw [List.length_drop]; omega :
          1 ≤ (l.drop (l.length - m)).length),
        List.drop_append_of_le_length (by omega : l.length - m + 1 ≤ l.length),
        List.drop_drop]

theorem appendPoint_eq (m : Nat) (c : Channel) (t v : ℚ)
    (h : c.times.length = c.values.length) :
    appendPoint m c t v
      = ⟨keepLast m (c.times ++ [t]), keepLast m (c.values ++ [v]), c.visible⟩ := by
  obtain ⟨ts, vs, vis⟩ := c
  simp only at h
  by_cases hm : m < (ts ++ [t]).length
  · have hlv : (vs ++ [v]).length = (ts ++ [t]).length := by simp [h]
    simp only [appendPoint, if_pos hm, keepLast, hlv]
  · push_neg at hm
    have hlv : (vs ++ [v]).length ≤ m := by
      simp only [List.length_append, List.length_cons, List.length_nil] at hm ⊢
      omega
    simp only [appendPoint, if_neg (by omega : ¬ m < (ts ++ [t]).length),
      keepLast_of_le hm, keepLast_of_le hlv]

theorem drainLoop_single (rs : List (ℚ × ℚ)) : ∀ (m : Nat) (chs : List Channel) (ci : Nat)
    (h : ci < chs.length) (flag : Bool) (T V : List ℚ),
    T.length = V.length →
    (chs.get ⟨ci, h⟩).times = keepLast m T →
    (chs.get ⟨ci, h⟩).values = keepLast m V →
    ∃ h' : ci < (drainLoop m chs flag (rs.map fun p => (ci, p.1, p.2))).1.length,
      (drainLoop m chs flag (rs.map fun p => (ci, p.1, p.2))).1.length = chs.length ∧
      ((drainLoop m chs flag (rs.map fun p => (ci, p.1, p.2))).1.get ⟨ci, h'⟩).times
        = keepLast m (T ++ (rs.filter fun p => 0 ≤ p.2).map Prod.fst) ∧
      ((drainLoop m chs flag (rs.map fun p => (ci, p.1, p.2))).1.get ⟨ci, h'⟩).values
        = keepLast m (V ++ (rs.filter fun p => 0 ≤ p.2).map Prod.snd) := by
  induction rs with
  | nil =>
    intro m chs ci h flag T V hTV hT hV
    exact ⟨h, rfl, by simpa using hT, by simpa using hV⟩
  | cons r rs ih =>
    intro m chs ci h flag T V hTV hT hV
    rw [List.map_cons]
    by_cases hv : 0 ≤ r.2
    · have happ : applyReading m chs (ci, r.1, r.2)
          = (chs.set ci (appendPoint m (chs.get ⟨ci, h⟩) r.1 r.2), true) := by
        simp [applyReading, h, hv]
      have hTlen : (keepLast m T).length = (keepLast m V).length := by
        rw [keepLast_length, keepLast_length, hTV]
      have hget : ∀ hset : ci < (chs.set ci (appendPoint m (chs.get ⟨ci, h⟩) r.1 r.2)).length,
          (chs.set ci (appendPoint m (chs.get ⟨ci, h⟩) r.1 r.2)).get ⟨ci, hset⟩
            = appendPoint m (chs.get ⟨ci, h⟩) r.1 r.2 := by
        intro hset
        simp [List.get_eq_getElem]
      have capp : appendPoint m (chs.get ⟨ci, h⟩) r.1 r.2
          = ⟨keepLast m (T ++ [r.1]), keepLast m (V ++ [r.2]), (chs.get ⟨ci, h⟩).visible⟩ := by
        rw [appendPoint_eq _ _ _ _ (by rw [hT, hV, hTlen]), hT, hV,
          keepLast_append, keepLast_append]
      have hset : ci < (chs.set ci (appendPoint m (chs.get ⟨ci, h⟩) r.1 r.2)).length := by
        simpa using h
      obtain ⟨h', hlen, ht', hv'⟩ := ih m
        (chs.set ci (appendPoint m (chs.get ⟨ci, h⟩) r.1 r.2)) ci hset (flag || true)
        (T ++ [r.1]) (V ++ [r.2]) (by simp [hTV])
        (by rw [hget hset, capp]) (by rw [hget hset, capp])
      rw [show drainLoop m chs flag ((ci, r.1, r.2) :: rs.map fun p => (ci, p.1, p.2))
            = drainLoop m (applyReading m chs (ci, r.1, r.2)).1
                (flag || (applyReading m chs (ci, r.1, r.2)).2)
                (rs.map fun p => (ci, p.1, p.2)) from rfl, happ]
      refine ⟨h', by simpa using hlen, ?_, ?_⟩
      · rw [ht', List.filter_cons_of_pos (by simpa using hv), List.map_cons,
          ← List.append_cons]
      · rw [hv', List.filter_cons_of_pos (by simpa using hv), List.map_cons,
          ← List.append_cons]
    · have happ : applyReading m chs (ci, r.1, r.2) = (chs, false) := by
        simp [applyReading, h, hv]
      obtain ⟨h', hlen, ht', hv'⟩ := ih m chs ci h (flag || false) T V hTV hT hV
      rw [show drainLoop m chs flag ((ci, r.1, r.2) :: rs.map fun p => (ci, p.1, p.2))
            = drainLoop m (applyReading m chs (ci, r.1, r.2)).1
                (flag || (applyReading m chs (ci, r.1, r.2)).2)
                (rs.map fun p => (ci, p.1, p.2)) from rfl, happ]
      refine ⟨h', hlen, ?_, ?_⟩
      · rw [ht', List.filter_cons_of_neg (by simpa using hv)]
      · rw [hv', List.filter_cons_of_neg (by simpa using hv)]

/-- C2: draining a batch of `N` readings enqueued for one existing channel
whose series starts empty leaves exactly the valid (non-negative-value)
readings, FIFO-trimmed to the newest `max_points`, in arrival order, in
both parallel arrays; the resulting length is `min N_valid max_points`. -/
theorem drain_single_channel (m : Nat) (chs : List Channel) (ci : Nat)
    (h : ci < chs.length) (rs : List (ℚ × ℚ))
    (hT : (chs.get ⟨ci, h⟩).times = []) (hV : (chs.get ⟨ci, h⟩).values = []) :
    ∃ h' : ci < (process_queue m chs (rs.map fun p => (ci, p.1, p.2))).1.length,
      ((process_queue m chs (rs.map fun p => (ci, p.1, p.2))).1.get ⟨ci, h'⟩).times
        = keepLast m ((rs.filter fun p => 0 ≤ p.2).map Prod.fst) ∧
      ((process_queue m chs (rs.map fun p => (ci, p.1, p.2))).1.get ⟨ci, h'⟩).values
        = keepLast m ((rs.filter fun p => 0 ≤ p.2).map Prod.snd) ∧
      ((process_queue m chs (rs.map fun p => (ci, p.1, p.2))).1.get ⟨ci, h'⟩).values.length
        = min ((rs.filter fun p => 0 ≤ p.2).length) m := by
  obtain ⟨h', _, ht, hv⟩ := drainLoop_single rs m chs ci h false [] [] rfl
    (by simpa [keepLast] using hT) (by simpa [keepLast] using hV)
  have h'' : ci < (process_queue m chs (rs.map fun p => (ci, p.1, p.2))).1.length := h'
  have ht2 : ((process_queue m chs (rs.map fun p => (ci, p.1, p.2))).1.get ⟨ci, h''⟩).times
      = keepLast m ((rs.filter fun p => 0 ≤ p.2).map Prod.fst) := by simpa using ht
  have hv2 : ((process_queue m chs (rs.map fun p => (ci, p.1, p.2))).1.get ⟨ci, h''⟩).values
      = keepLast m ((rs.filter fun p => 0 ≤ p.2).map Prod.snd) := by simpa using hv
  refine ⟨h'', ht2, hv2, ?_⟩
  rw [hv2, keepLast_length, List.length_map]

/-- C2, witness: one valid reading for the only (empty) channel under cap 2
lands in both arrays; the hypotheses are discharged at this concrete
instance and the trimmed lists evaluate to the enqueued point. -/
theorem drain_single_channel_witness :
    (∃ h' : 0 < (process_queue 2 [freshChannel]
        ([((1 : ℚ), (5 : ℚ))].map fun p => (0, p.1, p.2))).1.length,
      ((process_queue 2 [freshChannel]
          ([((1 : ℚ), (5 : ℚ))].map fun p => (0, p.1, p.2))).1.get ⟨0, h'⟩).times
        = keepLast 2 (([((1 : ℚ), (5 : ℚ))].filter fun p => 0 ≤ p.2).map Prod.fst) ∧
      ((process_queue 2 [freshChannel]
          ([((1 : ℚ), (5 : ℚ))].map fun p => (0, p.1, p.2))).1.get ⟨0, h'⟩).values
        = keepLast 2 (([((1 : ℚ), (5 : ℚ))].filter fun p => 0 ≤ p.2).map Prod.snd) ∧
      ((process_queue 2 [freshChannel]
          ([((1 : ℚ), (5 : ℚ))].map fun p => (0, p.1, p.2))).1.get ⟨0, h'⟩).values.length
        = min ([((1 : ℚ), (5 : ℚ))].filter fun p => 0 ≤ p.2).length 2) ∧
    keepLast 2 (([((1 : ℚ), (5 : ℚ))].filter fun p => 0 ≤ p.2).map Prod.fst) = [1] ∧
    keepLast 2 (([((1 : ℚ), (5 : ℚ))].filter fun p => 0 ≤ p.2).map Prod.snd) = [5] :=
  ⟨drain_single_channel 2 [freshChannel] 0 (by decide) [((1 : ℚ), (5 : ℚ))]
      (by decide) (by decide),
   by decide, by decide⟩

/-! ### C8: nearest-point selection -/

/-- The running minimum of `select_point` is the distance of some scanned
point, with its channel and point indices. -/
theorem nearestPoint_mem (chs : List Channel) (x y : ℚ) (d : ℚ) (i j : Nat)
    (h : nearestPoint chs x y = some (d, i, j)) :
    ∃ t v, (i, (j, (t, v))) ∈ allPoints chs ∧ d = sqDist x y t v := by
  have main : ∀ (l : List (Nat × Nat × ℚ × ℚ)) (acc : Option (ℚ × Nat × Nat)),
      l.foldl (fun best p =>
          let dd := sqDist x y p.2.2.1 p.2.2.2
          match best with
          | none => some (dd, p.1, p.2.1)
          | some b => if dd < b.1 then some (dd, p.1, p.2.1) else best) acc
        = some (d, i, j) →
      acc = some (d, i, j) ∨ ∃ t v, (i, (j, (t, v))) ∈ l ∧ d = sqDist x y t v := by
    intro l
    induction l with
    | nil =>
      intro acc h0
      exact Or.inl h0
    | cons p l ih =>
      intro acc h0
      rw [List.foldl_cons] at h0
      rcases ih _ h0 with hacc | ⟨t, v, hm, hdist⟩
      · cases acc with
        | none =>
          simp only [Option.some.injEq, Prod.mk.injEq] at hacc
          obtain ⟨h1, h2, h3⟩ := hacc
          right
          refine ⟨p.2.2.1, p.2.2.2, ?_, h1.symm⟩
          rw [← h2, ← h3]
          exact List.mem_cons_self p l
        | some b =>
          by_cases hlt : sqDist x y p.2.2.1 p.2.2.2 < b.1
          · simp only [if_pos hlt, Option.some.injEq, Prod.mk.injEq] at hacc
            obtain ⟨h1, h2, h3⟩ := hacc
            right
            refine ⟨p.2.2.1, p.2.2.2, ?_, h1.symm⟩
            rw [← h2, ← h3]
            exact List.mem_cons_self p l
          · simp only [if_neg hlt] at hacc
            exact Or.inl hacc
      · exact Or.inr ⟨t, v, List.mem_cons_of_mem _ hm, hdist⟩
  rcases main (allPoints chs) none h with h0 | h1
  · cases h0
  · exact h1

/-- C8: if no scanned point of a visible channel lies strictly within the
squared-distance threshold `0.001`, `select_point` leaves the selection
unchanged; if the running minimum is within the threshold, then with the
multi-select modifier held the nearest `(channel, index)` is toggled
(removed when present, appended when absent — so selecting an unselected
point twice restores the original selection), and without the modifier the
selection becomes that singleton. -/
theorem select_point_threshold_toggle :
    (∀ (chs : List Channel) (sel : List (Nat × Nat)) (x y : ℚ) (ctrl : Bool),
      (∀ e ∈ allPoints chs, ¬ (sqDist x y e.2.2.1 e.2.2.2 < 1 / 1000)) →
      select_point chs sel x y ctrl = sel) ∧
    (∀ (chs : List Channel) (sel : List (Nat × Nat)) (x y d : ℚ) (i j : Nat),
      nearestPoint chs x y = some (d, i, j) → d < 1 / 1000 →
      (((i, j) ∈ sel → select_point chs sel x y true = sel.erase (i, j)) ∧
       ((i, j) ∉ sel → select_point chs sel x y true = sel ++ [(i, j)] ∧
          select_point chs (sel ++ [(i, j)]) x y true = sel) ∧
       select_point chs sel x y false = [(i, j)])) := by
  constructor
  · intro chs sel x y ctrl hfar
    by_cases hc : chs = []
    · simp [select_point, hc]
    · rw [select_point, if_neg hc]
      cases hn : nearestPoint chs x y with
      | none => rfl
      | some b =>
        obtain ⟨d, i, j⟩ := b
        obtain ⟨t, v, hm, hdist⟩ := nearestPoint_mem chs x y d i j hn
        have : ¬ d < 1 / 1000 := by
          rw [hdist]
          exact hfar (i, (j, (t, v))) hm
        dsimp only
        rw [if_neg this]
  · intro chs sel x y d i j hn hd
    have hc : chs ≠ [] := by
      intro he
      rw [he] at hn
      simp [nearestPoint, allPoints] at hn
    have hsel : ∀ s : List (Nat × Nat), select_point chs s x y true
        = if (i, j) ∈ s then s.erase (i, j) else s ++ [(i, j)] := by
      intro s
      rw [select_point, if_neg hc, hn]
      dsimp only
      rw [if_pos hd, if_pos rfl]
    have hsingle : select_point chs sel x y false = [(i, j)] := by
      rw [select_point, if_neg hc, hn]
      dsimp only
      rw [if_pos hd, if_neg (by decide)]
    refine ⟨?_, ?_, hsingle⟩
    · intro hmem
      rw [hsel sel, if_pos hmem]
    · intro hmem
      refine ⟨by rw [hsel sel, if_neg hmem], ?_⟩
      rw [hsel (sel ++ [(i, j)]), if_pos (by simp)]
      rw [List.erase_append_right _ (by simpa using hmem)]
      simp

/-- C8, witness: one visible channel with one point at the origin; a click
at `(10, 10)` is a no-op, a Ctrl-click at `(0, 0.01)` (squared distance
`0.0001 < 0.001`) appends the point and a second identical Ctrl-click
removes it, and a plain click replaces the selection by the singleton. -/
theorem select_point_threshold_toggle_witness :
    select_point [⟨[0], [0], true⟩] [(0, 5)] 10 10 true = [(0, 5)] ∧
    (select_point [⟨[0], [0], true⟩] [] 0 (1 / 100) true = [] ++ [(0, 0)] ∧
      select_point [⟨[0], [0], true⟩] ([] ++ [(0, 0)]) 0 (1 / 100) true = []) ∧
    select_point [⟨[0], [0], true⟩] [(0, 5)] 0 (1 / 100) false = [(0, 0)] := by
  have hnear : nearestPoint [⟨[0], [0], true⟩] 0 (1 / 100) = some (1 / 10000, 0, 0) := by
    simp [nearestPoint, allPoints, sqDist]
    norm_num
  have hthr : (1 / 10000 : ℚ) < 1 / 1000 := by norm_num
  refine ⟨?_, ?_, ?_⟩
  · refine select_point_threshold_toggle.1 [⟨[0], [0], true⟩] [(0, 5)] 10 10 true ?_
    intro e he
    simp [allPoints] at he
    rw [he]
    simp [sqDist]
    norm_num
  · exact (select_point_threshold_toggle.2 [⟨[0], [0], true⟩] [] 0 (1 / 100) (1 / 10000)
      0 0 hnear hthr).2.1 (by simp)
  · exact (select_point_threshold_toggle.2 [⟨[0], [0], true⟩] [(0, 5)] 0 (1 / 100)
      (1 / 10000) 0 0 hnear hthr).2.2

/-! ### C6: failure handling in the capture loop -/

/-- C6, counterexample: with two channels where capture/recognition raises
for channel 0 but channel 1 would recognize the text `123` (which parses to
the valid value 123), the iteration enqueues nothing at all — the failure
of channel 0 halts capture for channel 1 in that iteration.  With no
failure the same iteration enqueues readings for both channels. -/
theorem capture_failure_skips_remaining_channels :
    (captureChannels (fun i => if i = 0 then none else some ("123")) 0
        [freshChannel, freshChannel] 0 []).1 = [] ∧
    (captureChannels (fun i => if i = 0 then none else some ("123")) 0
        [freshChannel, freshChannel] 0 []).2 = false ∧
    parse_value ("123") = some 123 ∧
    (captureChannels (fun _ => some ("123")) 0 [freshChannel, freshChannel] 0 []).1
      = [(0, 0, 123), (1, 0, 123)] := by
  refine ⟨?_, ?_, parse_value_123, ?_⟩
  · simp [captureChannels]
  · simp [captureChannels]
  · simp [captureChannels, parse_value_123, show (0 : ℚ) ≤ 123 from by decide]

/-- C6, amended: an exception while capturing or recognizing a channel is
caught one level above the per-channel loop, so it abandons the remaining
channels of that iteration (readings already enqueued in it are kept), but
it never escapes the `while` loop: the next iteration always runs. -/
theorem capture_exception_caught_at_iteration_level :
    (∀ (ocr : Nat → Option String) (ts : ℚ) (c : Channel) (rest : List Channel)
        (i : Nat) (q : List Reading), ocr i = none →
      captureChannels ocr ts (c :: rest) i q = (q, false)) ∧
    (∀ (it : MonIter) (rest : List MonIter) (q : List Reading),
      monitor_loop (it :: rest) q = monitor_loop rest (monitor_step it q)) := by
  constructor
  · intro ocr ts c rest i q hfail
    simp [captureChannels, hfail]
  · intro it rest q
    rfl

/-- C6, witness for the amended theorem: a one-channel iteration whose
capture raises leaves the queue as it was and reports the aborted
iteration. -/
theorem capture_exception_caught_at_iteration_level_witness :
    captureChannels (fun _ => none) 0 [freshChannel] 0 [(0, 1, 2)] = ([(0, 1, 2)], false) ∧
    monitor_loop [⟨fun _ => none, 0, [freshChannel]⟩, ⟨fun _ => none, 1, [freshChannel]⟩] []
      = monitor_loop [⟨fun _ => none, 1, [freshChannel]⟩]
          (monitor_step ⟨fun _ => none, 0, [freshChannel]⟩ []) :=
  ⟨capture_exception_caught_at_iteration_level.1 (fun _ => none) 0 freshChannel [] 0
      [(0, 1, 2)] rfl,
   capture_exception_caught_at_iteration_level.2 ⟨fun _ => none, 0, [freshChannel]⟩
      [⟨fun _ => none, 1, [freshChannel]⟩] []⟩

/-! ### C10: every stored value lies in `[0, 100000]` -/

/-- Readings appended by a capture iteration carry values accepted by the
cascade, which are range-checked and filtered non-negative. -/
theorem captureChannels_queue_mem (ocr : Nat → Option String) (ts : ℚ) :
    ∀ (chs : List Channel) (i : Nat) (q : List Reading) (r : Reading),
      r ∈ (captureChannels ocr ts chs i q).1 → r ∈ q ∨ (0 ≤ r.2.2 ∧ r.2.2 ≤ 100000) := by
  intro chs
  induction chs with
  | nil =>
    intro i q r h
    exact Or.inl h
  | cons c rest ih =>
    intro i q r h
    rw [captureChannels] at h
    cases ho : ocr i with
    | none =>
      rw [ho] at h
      exact Or.inl h
    | some text =>
      rw [ho] at h
      dsimp only at h
      cases hp : parse_value text with
      | some v =>
        rw [hp] at h
        dsimp only at h
        by_cases hv : (0 : ℚ) ≤ v
        · rw [if_pos hv] at h
          rcases ih (i + 1) (q ++ [(i, ts, v)]) r h with hq | hr
          · rcases List.mem_append.mp hq with hq' | hq'
            · exact Or.inl hq'
            · have hre : r = (i, ts, v) := by simpa using hq'
              have hrange := (tryPatterns_sound patternList (pyStrip text.data) v hp).1
              right
              rw [hre]
              exact hrange
          · exact Or.inr hr
        · rw [if_neg hv] at h
          exact ih (i + 1) q r h
      | none =>
        rw [hp] at h
        dsimp only at h
        exact ih (i + 1) q r h

/-- One applied reading with an in-range value keeps all channel values in
range. -/
theorem applyReading_values {m : Nat} {chs : List Channel} {r : Reading}
    (hch : ∀ c ∈ chs, ∀ v ∈ c.values, 0 ≤ v ∧ v ≤ 100000)
    (hr : 0 ≤ r.2.2 ∧ r.2.2 ≤ 100000) :
    ∀ c ∈ (applyReading m chs r).1, ∀ v ∈ c.values, 0 ≤ v ∧ v ≤ 100000 := by
  intro c hc v hv
  rw [applyReading] at hc
  by_cases hlt : r.1 < chs.length
  · rw [dif_pos hlt] at hc
    by_cases h0 : (0 : ℚ) ≤ r.2.2
    · rw [if_pos h0] at hc
      dsimp only at hc
      rcases List.mem_or_eq_of_mem_set hc with hc' | rfl
      · exact hch c hc' v hv
      · have hsub : v ∈ (chs.get ⟨r.1, hlt⟩).values ++ [r.2.2] := by
          revert hv
          rw [appendPoint]
          by_cases hcap : m < ((chs.get ⟨r.1, hlt⟩).times ++ [r.2.1]).length
          · rw [if_pos hcap]
            intro hv
            exact List.drop_subset _ _ hv
          · rw [if_neg hcap]
            intro hv
            exact hv
        rcases List.mem_append.mp hsub with h1 | h1
        · exact hch _ (List.get_mem chs _ hlt) v h1
        · rw [List.mem_singleton.mp h1]
          exact hr
    · rw [if_neg h0] at hc
      exact hch c hc v hv
  · rw [dif_neg hlt] at hc
    exact hch c hc v hv

/-- Draining a queue of in-range readings keeps all channel values in
range. -/
theorem drainLoop_values (m : Nat) : ∀ (q : List Reading) (chs : List Channel) (flag : Bool),
    (∀ c ∈ chs, ∀ v ∈ c.values, 0 ≤ v ∧ v ≤ 100000) →
    (∀ r ∈ q, 0 ≤ r.2.2 ∧ r.2.2 ≤ 100000) →
    ∀ c ∈ (drainLoop m chs flag q).1, ∀ v ∈ c.values, 0 ≤ v ∧ v ≤ 100000 := by
  intro q
  induction q with
  | nil =>
    intro chs flag hch _ c hc
    exact hch c hc
  | cons r q ih =>
    intro chs flag hch hq
    show ∀ c ∈ (drainLoop m (applyReading m chs r).1
      (flag || (applyReading m chs r).2) q).1, ∀ v ∈ c.values, 0 ≤ v ∧ v ≤ 100000
    exact ih (applyReading m chs r).1 _
      (applyReading_values hch (hq r (List.mem_cons_self r q)))
      (fun r' hr' => hq r' (List.mem_cons_of_mem _ hr'))

/-- Every pipeline transition preserves the range invariant. -/
theorem sysStep_preserves {s s' : Store} (h : SysStep s s') (hs : InRangeStore s) :
    InRangeStore s' := by
  cases h with
  | capture ocr ts =>
    refine ⟨hs.1, ?_⟩
    intro r hr
    rcases captureChannels_queue_mem ocr ts s.channels 0 s.queue r hr with hq | hr'
    · exact hs.2 r hq
    · exact hr'
  | drain m =>
    refine ⟨?_, by simp⟩
    exact drainLoop_values m s.queue s.channels false hs.1 hs.2
  | clear =>
    rw [clear_all_data]
    by_cases he : s.channels.isEmpty
    · rw [if_pos he]
      exact hs
    · rw [if_neg he]
      refine ⟨?_, ?_⟩
      · intro c hc v hv
        rw [List.mem_map] at hc
        obtain ⟨c0, _, rfl⟩ := hc
        simp at hv
      · intro r hr
        simp at hr
  | add =>
    refine ⟨?_, hs.2⟩
    intro c hc
    rcases List.mem_append.mp hc with hc' | hc'
    · exact hs.1 c hc'
    · have hce : c = freshChannel := by simpa using hc'
      intro v hv
      rw [hce] at hv
      simp [freshChannel] at hv
  | remove idx =>
    exact ⟨fun c hc => hs.1 c (List.mem_of_mem_eraseIdx hc), hs.2⟩
  | selectPt x y ctrl =>
    exact ⟨hs.1, hs.2⟩
  | clearSel =>
    exact ⟨hs.1, hs.2⟩

/-- C10: in every reachable state of the pipeline, every value stored in
any channel's `values` array lies in the inclusive range `[0, 100000]`:
the producer enqueues only range-checked extraction results that are
additionally non-negative, the consumer appends only non-negative dequeued
values, and no other transition inserts values. -/
theorem stored_values_in_range :
    ∀ s : Store, Reachable s → ∀ c ∈ s.channels, ∀ v ∈ c.values, 0 ≤ v ∧ v ≤ 100000 := by
  intro s h
  have hinv : InRangeStore s := by
    rw [Reachable] at h
    induction h with
    | refl => exact ⟨by simp [initStore], by simp [initStore]⟩
    | tail _ hbc ih => exact sysStep_preserves hbc ih
  exact hinv.1

/-- C10, witness: in the state reached by adding a channel, one capture
iteration that recognizes `123`, and one drain, the single stored value 123
is in range. -/
theorem stored_values_in_range_witness :
    (0 : ℚ) ≤ 123 ∧ (123 : ℚ) ≤ 100000 := by
  have ecap : captureChannels (fun _ => some ("123")) (0 : ℚ) [freshChannel] 0 []
      = ([(0, 0, 123)], true) := by
    simp [captureChannels, parse_value_123, show (0 : ℚ) ≤ 123 from by decide]
  have edrain : process_queue 1000 [freshChannel] [(0, 0, 123)]
      = ([⟨[0], [123], true⟩], true) := by decide
  have h1 : SysStep initStore ⟨[freshChannel], [], []⟩ := SysStep.add initStore
  have h2 : SysStep ⟨[freshChannel], [], []⟩ ⟨[freshChannel], [(0, 0, 123)], []⟩ := by
    have h := SysStep.capture (fun _ => some ("123")) 0 ⟨[freshChannel], [], []⟩
    rwa [show (⟨[freshChannel], [], []⟩ : Store).channels = [freshChannel] from rfl,
      show (⟨[freshChannel], [], []⟩ : Store).queue = [] from rfl,
      show (⟨[freshChannel], [], []⟩ : Store).selected = [] from rfl, ecap] at h
  have h3 : SysStep ⟨[freshChannel], [(0, 0, 123)], []⟩ ⟨[⟨[0], [123], true⟩], [], []⟩ := by
    have h := SysStep.drain 1000 ⟨[freshChannel], [(0, 0, 123)], []⟩
    rwa [show (⟨[freshChannel], [(0, 0, 123)], []⟩ : Store).channels = [freshChannel] from rfl,
      show (⟨[freshChannel], [(0, 0, 123)], []⟩ : Store).queue = [(0, 0, 123)] from rfl,
      show (⟨[freshChannel], [(0, 0, 123)], []⟩ : Store).selected = [] from rfl, edrain] at h
  have hreach : Reachable ⟨[⟨[0], [123], true⟩], [], []⟩ :=
    Relation.ReflTransGen.tail
      (Relation.ReflTransGen.tail (Relation.ReflTransGen.single h1) h2) h3
  exact stored_values_in_range ⟨[⟨[0], [123], true⟩], [], []⟩ hreach
    ⟨[0], [123], true⟩ (by decide) 123 (by decide)

end OcrPipeline
